import Mathlib

/-!
Shallow embedding of `src/main.py` (class `TicketManager`): a ticket-intake
tool that trains two decision trees over a keyword-presence bag-of-words
vector built from a fixed Spanish vocabulary, and persists tickets to a CSV
file.  Texts are Lean `String`s; Python string operations are modelled over
`List Char` (Python strings are sequences of code points).  The scikit-learn
decision trees are external library code: a fitted tree is modelled as an
arbitrary prediction function returning an index into the list of classes it
was trained on, which is exactly the guarantee `DecisionTreeClassifier.predict`
provides (it returns an element of `classes_`).  `LabelEncoder` is modelled
faithfully: its classes are the sorted distinct labels seen at fit time.
-/

set_option maxRecDepth 10000

/-- Boolean test that `n` occurs at the start of `h`; models the anchored
step of the Python substring operator. -/
def isStartOf : List Char → List Char → Bool
  | [], _ => true
  | _ :: _, [] => false
  | a :: as, b :: bs => a == b && isStartOf as bs

/-- Boolean test that `n` occurs as a contiguous subsequence of `h`; models
the Python expression `n in h` on strings.  The empty needle occurs in
every haystack, as in Python. -/
def containsSub (n : List Char) : List Char → Bool
  | [] => isStartOf n []
  | b :: bs => isStartOf n (b :: bs) || containsSub n bs

/-- Lowercasing of one code point, modelling Python `str.lower` restricted to
the alphabet this program uses: ASCII letters plus the Spanish accented
uppercase letters. -/
def pyLowerChar (c : Char) : Char :=
  if 65 ≤ c.toNat ∧ c.toNat ≤ 90 then Char.ofNat (c.toNat + 32)
  else if c = 'Á' then 'á'
  else if c = 'É' then 'é'
  else if c = 'Í' then 'í'
  else if c = 'Ó' then 'ó'
  else if c = 'Ú' then 'ú'
  else if c = 'Ñ' then 'ñ'
  else if c = 'Ü' then 'ü'
  else c

/-- Lowercasing of a code-point sequence; models Python `s.lower()`. -/
def pyLowerData (s : List Char) : List Char := s.map pyLowerChar

/-- Strict code-point lexicographic order on code-point sequences; models the
order Python `sorted` uses on strings. -/
def charsLt : List Char → List Char → Bool
  | _, [] => false
  | [], _ :: _ => true
  | a :: as, b :: bs =>
    if a.toNat < b.toNat then true
    else if b.toNat < a.toNat then false
    else charsLt as bs

/-- Strict code-point lexicographic order on strings. -/
def strLt (a b : String) : Bool := charsLt a.data b.data

/-- Insertion of a string into a strictly sorted list, dropping duplicates. -/
def insortDedup (s : String) : List String → List String
  | [] => [s]
  | x :: xs =>
    if strLt s x then s :: x :: xs
    else if s = x then x :: xs
    else x :: insortDedup s xs

/-- Sorted deduplication; models Python `sorted(set(l))` for string lists. -/
def dedupSort (l : List String) : List String := l.foldr insortDedup []

/-- Vocabulary `self.category_keywords` of `TicketManager.__init__`: category
name paired with its keyword set, in source order; the Python sets are listed
in their literal order. -/
def category_keywords : List (String × List String) :=
  [ ("agua", ["fuga", "inundación", "desborde", "filtración", "derrame", "humedad"]),
    ("electricidad", ["apagón", "corte", "cable", "sobrecarga", "falla eléctrica", "cortocircuito"]),
    ("seguridad", ["robo", "asalto", "vandalismo", "intrusión", "allanamiento", "violación"]),
    ("ruido", ["ruido", "fiesta", "música", "estruendo", "bulla", "clamor"]),
    ("limpieza", ["basura", "desorden", "limpieza", "residuos", "suciedad", "desecho"]),
    ("fuego", ["incendio", "chispa", "humo", "llamas", "combustión", "alarma incendio"]),
    ("animales", ["perro", "gato", "roedor", "avispas", "abejas", "mapache", "jabalí", "serpiente"]),
    ("conflictos", ["discusión", "pelea", "riña", "agresión", "confrontación", "enfrentamiento"]) ]

/-- Priority table `self.priority_map` of `TicketManager.__init__`. -/
def priority_map : List (String × String) :=
  [ ("seguridad", "Alta"), ("electricidad", "Alta"), ("fuego", "Alta"),
    ("conflictos", "Alta"), ("agua", "Media"), ("animales", "Media"),
    ("ruido", "Baja"), ("limpieza", "Baja"), ("otro", "Media") ]

/-- Association-list lookup modelling Python `dict` access on unique keys. -/
def alGet {α : Type} (k : String) : List (String × α) → Option α
  | [] => none
  | (k2, v) :: t => if k = k2 then some v else alGet k t

/-- Priority of a category, modelling the Python lookup `self.priority_map.get` with the default `Media`. -/
def priorityOf (category : String) : String :=
  (alGet category priority_map).getD ("Media")

/-- Every keyword of every category, enumerated; the multiset underlying the
Python set comprehension in `_prepare_dataset`. -/
def allKeywordsList : List String :=
  (category_keywords.map Prod.snd).flatten

/-- Model of `self.features = sorted({kw for kws in self.category_keywords.values() for kw in kws})`. -/
def features : List String := dedupSort allKeywordsList

/-- Model of the bag-of-words vectorization used by `_prepare_dataset`,
`classify_ticket` and `prioritize_ticket`:
`[1 if kw in text.lower() else 0 for kw in self.features]`. -/
def vectorize (text : String) : List Nat :=
  features.map (fun kw => if containsSub kw.data (pyLowerData text.data) then 1 else 0)

/-- Sentence templates of `_prepare_dataset`, each split at its single `{kw}`
substitution slot. -/
def templates : List (String × String) :=
  [ ("Se detecta ", " en la instalación."),
    ("Hay un reporte de ", " hace minutos."),
    ("Se percibe ", " cerca del área común."),
    ("Alerta: posible ", " en el sector.") ]

/-- Model of `tmpl.format(kw=kw)`. -/
def fmtT (t : String × String) (kw : String) : String := t.1 ++ kw ++ t.2

/-- Synthetic corpus of `_prepare_dataset`: one `(text, category, priority)`
triple per category, keyword and template, in enumeration order. -/
def datasetExamples : List (String × String × String) :=
  category_keywords.flatMap (fun c =>
    c.2.flatMap (fun kw =>
      templates.map (fun t => (fmtT t kw, c.1, priorityOf c.1))))

/-- Category labels `self.y_cat` of the synthetic corpus. -/
def y_cat : List String := datasetExamples.map (fun e => e.2.1)

/-- Priority labels `self.y_prio` of the synthetic corpus. -/
def y_prio : List String := datasetExamples.map (fun e => e.2.2)

/-- Feature matrix `self.X` of the synthetic corpus. -/
def Xmatrix : List (List Nat) := datasetExamples.map (fun e => vectorize e.1)

/-- Classes of `self.le_cat` after `fit_transform(self.y_cat)`:
`LabelEncoder` stores the sorted distinct labels. -/
def classesCat : List String := dedupSort y_cat

/-- Classes of `self.le_prio` after `fit_transform(self.y_prio)`. -/
def classesPrio : List String := dedupSort y_prio

/-- Model of `classify_ticket`: vectorize the description and decode the
tree prediction through the category label encoder.  The fitted tree
`self.clf_cat` is the parameter `clf`; scikit-learn guarantees only that
`predict` returns one of the classes seen at fit time, hence the type
`List Nat → Fin classesCat.length`. -/
def classify_ticket (clf : List Nat → Fin classesCat.length)
    (description : String) : String :=
  classesCat.get (clf (vectorize description))

/-- Model of `prioritize_ticket`: vectorize `description or ''` and decode
the tree prediction through the priority label encoder; the `category`
argument is accepted but never read.  `description` defaults to `None`,
modelled by `Option String` with default `none`; `description or ''` is
`Option.getD description ""` (a falsy empty string maps to itself). -/
def prioritize_ticket (clf : List Nat → Fin classesPrio.length)
    (category : String) (description : Option String := none) : String :=
  let _ := category
  classesPrio.get (clf (vectorize (description.getD (""))))

/-- Modelled from the spec: the baseline keyword-matcher variant of the
classification facade is described by the spec but absent from the source
tree, which contains only the trained variant.  The spec describes it as an
ordered set of category to keyword-set rules, tested in fixed priority order
against the lowercase description, first match wins, with fallback category
`otro`. -/
def classify_baseline (description : String) : String :=
  match category_keywords.find?
      (fun c => c.2.any (fun kw => containsSub kw.data (pyLowerData description.data))) with
  | some c => c.1
  | none => "otro"

/-- Modelled from the spec: in the baseline variant, priority is a pure
lookup from category to a fixed priority level, falling back to the default
priority for an unknown category. -/
def prioritize_baseline (category : String) : String := priorityOf category

theorem isStartOf_iff (n h : List Char) : isStartOf n h = true ↔ n <+: h := by
  induction n generalizing h with
  | nil => simp [isStartOf]
  | cons a as ih =>
    cases h with
    | nil => simp [isStartOf]
    | cons b bs => simp [isStartOf, List.cons_prefix_cons, ih]

theorem containsSub_iff (n h : List Char) : containsSub n h = true ↔ n <:+: h := by
  induction h with
  | nil =>
    cases n with
    | nil => simp [containsSub, isStartOf]
    | cons a as => simp [containsSub, isStartOf]
  | cons b bs ih =>
    simp [containsSub, List.infix_cons_iff, isStartOf_iff, ih]

theorem getD_map_nat (l : List String) (f : String → Nat) (i : Nat)
    (hi : i < l.length) : (l.map f).getD i 0 = f (l.getD i ("")) := by
  rw [List.getD_eq_getElem _ _ (by simpa using hi), List.getD_eq_getElem _ _ hi,
    List.getElem_map]

theorem count_map_eq_one {α : Type} [DecidableEq α] (l : List α) (f : α → Nat)
    (a : α) (hnd : l.Nodup) (ha : a ∈ l) (h1 : f a = 1)
    (h0 : ∀ b ∈ l, b ≠ a → f b = 0) : (l.map f).count 1 = 1 := by
  induction l with
  | nil => cases ha
  | cons x xs ih =>
    rcases List.mem_cons.mp ha with rfl | hmem
    · have hz : List.count 1 (xs.map f) = 0 := by
        refine List.count_eq_zero.mpr ?_
        intro hone
        rcases List.mem_map.mp hone with ⟨b, hb, hfb⟩
        have : f b = 0 :=
          h0 b (List.mem_cons_of_mem _ hb)
            (fun e => (List.nodup_cons.mp hnd).1 (e ▸ hb))
        omega
      simp [List.count_cons, h1, hz]
    · have hx0 : f x = 0 := by
        refine h0 x (List.mem_cons_self _ _) ?_
        intro e
        exact (List.nodup_cons.mp hnd).1 (e ▸ hmem)
      have := ih (List.nodup_cons.mp hnd).2 hmem
        (fun b hb hne => h0 b (List.mem_cons_of_mem _ hb) hne)
      simp [List.count_cons, hx0, this]

theorem keywords_in_features :
    ∀ c ∈ category_keywords, ∀ kw ∈ c.2,
      kw ∈ features ∧ pyLowerData kw.data = kw.data := by decide

theorem features_nodup : features.Nodup := by decide

theorem data_append3 (a b c : String) :
    (a ++ b ++ c).data = a.data ++ (b.data ++ c.data) := by
  show (a.data ++ b.data) ++ c.data = _
  exact List.append_assoc a.data b.data c.data

/-- C1: in the trained variant the priority prediction is independent of the
category argument: for every fitted priority tree, any two category strings
and any description, `prioritize_ticket` returns the same result, and that
result is obtained from the feature vector of the description alone by the
priority model. -/
theorem c1_prioritize_independent_of_category
    (clf : List Nat → Fin classesPrio.length) (c1 c2 d : String) :
    prioritize_ticket clf c1 (some d) = prioritize_ticket clf c2 (some d) ∧
    prioritize_ticket clf c1 (some d) = classesPrio.get (clf (vectorize d)) :=
  ⟨rfl, rfl⟩

/-- C2: for every input text the feature vector has one slot per distinct
keyword of the vocabulary, the keyword order fixing the indexing is strictly
sorted, and slot `i` is 1 exactly when keyword `i` occurs as a contiguous
substring of the lowercased text. -/
theorem c2_feature_vector_shape (text : String) :
    (vectorize text).length = allKeywordsList.dedup.length ∧
    List.Pairwise (fun a b => strLt a b = true) features ∧
    ∀ i, i < features.length →
      ((vectorize text).getD i 0 = 1 ↔
        containsSub (features.getD i ("")).data (pyLowerData text.data) = true) := by
  refine ⟨?_, by decide, ?_⟩
  · show (features.map _).length = _
    rw [List.length_map]
    decide
  · intro i hi
    show (features.map _).getD i 0 = 1 ↔ _
    rw [getD_map_nat features _ i hi]
    rcases Bool.eq_false_or_eq_true
        (containsSub (features.getD i ("")).data (pyLowerData text.data)) with hb | hb
    · simp [hb]
    · simp [hb]

/-- Witness for C2 at a concrete text and slot: slot 26 is the slot of the
keyword `fuga`, which occurs in the text. -/
theorem c2_feature_vector_shape_witness :
    (vectorize "hay una fuga de agua").getD 26 0 = 1 ↔
      containsSub (features.getD 26 ("")).data
        (pyLowerData ("hay una fuga de agua".data)) = true :=
  (c2_feature_vector_shape ("hay una fuga de agua")).2.2 26 (by decide)

/-- C3: the synthetic corpus has exactly one example per category, keyword
and template, so its size is the sum over categories of keyword count times
template count, and every example carries its category label together with
the priority-table priority of that category. -/
theorem c3_dataset_size_and_labels :
    datasetExamples.length =
      (category_keywords.map (fun c => c.2.length * templates.length)).sum ∧
    ∀ e ∈ datasetExamples,
      e.2.1 ∈ category_keywords.map Prod.fst ∧ e.2.2 = priorityOf e.2.1 := by
  exact ⟨by decide, by decide⟩

/-- Witness for C3 at a concrete corpus element. -/
theorem c3_dataset_size_and_labels_witness :
    ("Se detecta fuga en la instalación.", "agua", "Media").2.1 ∈
      category_keywords.map Prod.fst ∧
    ("Se detecta fuga en la instalación.", "agua", "Media").2.2 =
      priorityOf ("Se detecta fuga en la instalación.", "agua", "Media").2.1 :=
  c3_dataset_size_and_labels.2 _ (by decide)

/-- C4 is refuted as stated: for the category `fuego`, its keyword
`alarma incendio` and the first template, no keyword of any other category
occurs as a substring of the generated sentence, yet the vector of the
sentence has two slots set to 1, because the keyword `incendio` of the same
category also occurs inside `alarma incendio`. -/
theorem c4_counterexample :
    ("Se detecta ", " en la instalación.") ∈ templates ∧
    ("fuego", ["incendio", "chispa", "humo", "llamas", "combustión", "alarma incendio"])
      ∈ category_keywords ∧
    "alarma incendio"
      ∈ ["incendio", "chispa", "humo", "llamas", "combustión", "alarma incendio"] ∧
    (∀ c ∈ category_keywords, c.1 ≠ "fuego" → ∀ kw ∈ c.2,
      containsSub kw.data
        (pyLowerData (fmtT ("Se detecta ", " en la instalación.") "alarma incendio").data)
        = false) ∧
    (vectorize (fmtT ("Se detecta ", " en la instalación.") "alarma incendio")).count 1
      = 2 := by
  decide

/-- C4 (amended): for every category, every keyword of that category and
every template, if no other keyword of the whole vocabulary, of any category,
occurs as a substring of the lowercased generated sentence, then vectorizing
that sentence sets exactly one feature slot to 1, namely the slot of that
keyword. -/
theorem c4_amended_one_hot (c : String × List String) (hc : c ∈ category_keywords)
    (kw : String) (hkw : kw ∈ c.2) (t : String × String) (ht : t ∈ templates)
    (hOnly : ∀ kw2 ∈ features, kw2 ≠ kw →
      containsSub kw2.data (pyLowerData (fmtT t kw).data) = false) :
    (vectorize (fmtT t kw)).count 1 = 1 ∧
    (vectorize (fmtT t kw)).getD (features.indexOf kw) 0 = 1 := by
  obtain ⟨hmem, hfix⟩ := keywords_in_features c hc kw hkw
  have hsub : containsSub kw.data (pyLowerData (fmtT t kw).data) = true := by
    refine (containsSub_iff _ _).mpr ?_
    rw [show (fmtT t kw).data = t.1.data ++ (kw.data ++ t.2.data) from data_append3 t.1 kw t.2]
    rw [pyLowerData, List.map_append, List.map_append]
    rw [show List.map pyLowerChar kw.data = kw.data from hfix]
    rw [← List.append_assoc]
    exact List.infix_append _ _ _
  have h1 : (if containsSub kw.data (pyLowerData (fmtT t kw).data) then (1 : Nat) else 0) = 1 := by
    simp [hsub]
  have h0 : ∀ b ∈ features, b ≠ kw →
      (if containsSub b.data (pyLowerData (fmtT t kw).data) then (1 : Nat) else 0) = 0 := by
    intro b hb hne
    simp [hOnly b hb hne]
  constructor
  · exact count_map_eq_one features _ kw features_nodup hmem h1 h0
  · have hlt : features.indexOf kw < features.length := List.indexOf_lt_length.mpr hmem
    show (features.map _).getD _ 0 = 1
    rw [getD_map_nat features _ _ hlt]
    rw [List.getD_eq_getElem features ("") hlt, List.getElem_indexOf hlt]
    exact h1

/-- Witness for the amended C4: the keyword `fuga` of `agua` with the first
template; the generated sentence contains no other keyword. -/
theorem c4_amended_one_hot_witness :
    (vectorize (fmtT ("Se detecta ", " en la instalación.") "fuga")).count 1 = 1 ∧
    (vectorize (fmtT ("Se detecta ", " en la instalación.") "fuga")).getD
      (features.indexOf ("fuga")) 0 = 1 :=
  c4_amended_one_hot
    ("agua", ["fuga", "inundación", "desborde", "filtración", "derrame", "humedad"])
    (by decide) "fuga" (by decide)
    ("Se detecta ", " en la instalación.") (by decide) (by decide)

/-- C5: for every fitted category tree and every description text, the
trained classifier returns the name of a category that has at least one
keyword, and never the zero-keyword fallback category `otro`. -/
theorem c5_label_space (clf : List Nat → Fin classesCat.length) (d : String) :
    classify_ticket clf d ∈
      (category_keywords.filter (fun c => !c.2.isEmpty)).map Prod.fst ∧
    classify_ticket clf d ≠ "otro" := by
  have hmem : classify_ticket clf d ∈ classesCat :=
    List.get_mem classesCat _ _
  have hsubset : ∀ x ∈ classesCat,
      x ∈ (category_keywords.filter (fun c => !c.2.isEmpty)).map Prod.fst := by
    decide
  have hotro : "otro" ∉ classesCat := by decide
  exact ⟨hsubset _ hmem, fun h => hotro (h ▸ hmem)⟩

/-- C6: once trained, classification is total: the model of
`classify_ticket` is a total function, the empty text vectorizes to the
all-zero vector, and every text, the empty one included, yields a prediction
drawn from the learned classes. -/
theorem c6_classify_total (clf : List Nat → Fin classesCat.length) :
    vectorize ("") = List.replicate features.length 0 ∧
    (∀ d : String, classify_ticket clf d ∈ classesCat) ∧
    classify_ticket clf ("") ∈ classesCat := by
  refine ⟨by decide, fun d => List.get_mem classesCat _ _, List.get_mem classesCat _ _⟩

/-- C9: on the baseline variant, the description `hay una fuga de agua`
classifies as `agua`, and the category `seguridad` prioritizes as `Alta`. -/
theorem c9_baseline_examples :
    classify_baseline ("hay una fuga de agua") = "agua" ∧
    prioritize_baseline ("seguridad") = "Alta" := by
  decide

/-- One cell of the persisted store, as a code-point sequence. -/
abbrev Cell := List Char

/-- A ticket record, modelling a Python dict produced by `csv.DictReader`
or built by the UI layer: field names paired with values, where `none`
stands for the reader `restval` `None` given to columns a short row lacks. -/
abbrev TicketRec := List (Cell × Option Cell)

/-- Division of a code-point sequence at every occurrence of `c`, modelling
line and field splitting of the CSV subset without quoting. -/
def splitOnChar (c : Char) : List Char → List (List Char)
  | [] => [[]]
  | x :: xs =>
    match splitOnChar c xs with
    | [] => [[]]
    | r :: rs => if x = c then [] :: r :: rs else (x :: r) :: rs

/-- Interleaving of a separator between chunks, the inverse of `splitOnChar`. -/
def joinSep (c : Char) : List (List Char) → List Char
  | [] => []
  | [l] => l
  | l :: l2 :: ls => l ++ c :: joinSep c (l2 :: ls)

/-- Lines of the store that contain at least one character; `csv.reader`
produces no row for a blank line. -/
def csvLines (content : List Char) : List (List Char) :=
  (splitOnChar '\n' content).filter (fun l => !l.isEmpty)

/-- Model of one `csv.DictReader` row: header names paired with the fields
of the row; missing trailing fields are given `none`, extra fields beyond
the header are not represented. -/
def mkRecord : List Cell → List Cell → TicketRec
  | [], _ => []
  | h :: hs, [] => (h, none) :: mkRecord hs []
  | h :: hs, v :: vs => (h, some v) :: mkRecord hs vs

/-- Model of reading the store with `csv.DictReader`: the first nonblank
line is the header, every further nonblank line is one record. -/
def parseStore (content : List Char) : List TicketRec :=
  match csvLines content with
  | [] => []
  | header :: rows =>
    rows.map (fun r => mkRecord (splitOnChar ',' header) (splitOnChar ',' r))

/-- Model of `cargar_tickets` over the store file state, where `none` is an
absent file: the `FileNotFoundError` branch normalizes absence to the empty
list instead of propagating the error. -/
def cargar_tickets (file : Option (List Char)) : List TicketRec :=
  match file with
  | none => []
  | some content => parseStore content

/-- Union of all field names over all tickets in first-seen order; models
the `all_fields` loop of `guardar_tickets`. -/
def collectFields (ts : List TicketRec) : List Cell :=
  ts.foldl (fun acc t =>
    t.foldl (fun a kv => if kv.1 ∈ a then a else a ++ [kv.1]) acc) []

/-- Lookup of a field name in a record, modelling Python dict access for
records with unique keys. -/
def recGet (k : Cell) : TicketRec → Option (Option Cell)
  | [] => none
  | (k2, v) :: t => if k = k2 then some v else recGet k t

/-- Cell written for one field of one ticket: `ticket.get(field, '')`, with
`csv.writer` rendering a stored `None` value as the empty string. -/
def cellOf (t : TicketRec) (k : Cell) : Cell :=
  match recGet k t with
  | some (some v) => v
  | some none => []
  | none => []

/-- Rendering of the whole store by `csv.DictWriter`: a header line from the
collected fields, then one line per ticket, each line terminated by a
newline. -/
def renderStore (ts : List TicketRec) : List Char :=
  ((joinSep ',' (collectFields ts) ::
      ts.map (fun t => joinSep ',' ((collectFields ts).map (cellOf t)))).map
    (fun l => l ++ ['\n'])).flatten

/-- Model of `guardar_tickets` as a transformer of the store file state: an
empty ticket list returns before any file operation, leaving the file as it
was; a nonempty list truncates and rewrites the whole file. -/
def guardar_tickets (ts : List TicketRec) (file : Option (List Char)) :
    Option (List Char) :=
  if ts.isEmpty then file else some (renderStore ts)

theorem splitOnChar_ne_nil (c : Char) (l : List Char) : splitOnChar c l ≠ [] := by
  cases l with
  | nil => simp [splitOnChar]
  | cons x xs =>
    unfold splitOnChar
    cases splitOnChar c xs with
    | nil => simp
    | cons r rs =>
      dsimp only
      split <;> simp

theorem not_mem_of_mem_splitOnChar (c : Char) (l : List Char) :
    ∀ p ∈ splitOnChar c l, c ∉ p := by
  induction l with
  | nil =>
    intro p hp
    simp [splitOnChar] at hp
    simp [hp]
  | cons x xs ih =>
    intro p hp
    rw [splitOnChar] at hp
    rcases hr : splitOnChar c xs with _ | ⟨r, rs⟩
    · exact absurd hr (splitOnChar_ne_nil c xs)
    · rw [hr] at hp
      dsimp only at hp
      by_cases hx : x = c
      · rw [if_pos hx] at hp
        rcases List.mem_cons.mp hp with rfl | hp2
        · simp
        · exact ih p (by rw [hr]; exact hp2)
      · rw [if_neg hx] at hp
        rcases List.mem_cons.mp hp with rfl | hp2
        · intro hmem
          rcases List.mem_cons.mp hmem with hcx | hmem2
          · exact hx hcx.symm
          · exact ih r (by rw [hr]; exact List.mem_cons_self r rs) hmem2
        · exact ih p (by rw [hr]; exact List.mem_cons_of_mem r hp2)

theorem splitOnChar_append_sep (c : Char) (xs l : List Char) (h : c ∉ xs) :
    splitOnChar c (xs ++ c :: l) = xs :: splitOnChar c l := by
  induction xs with
  | nil =>
    rw [List.nil_append, splitOnChar]
    rcases hr : splitOnChar c l with _ | ⟨r, rs⟩
    · exact absurd hr (splitOnChar_ne_nil c l)
    · simp
  | cons a as ih =>
    have ha : ¬a = c := fun e => h (e ▸ List.mem_cons_self a as)
    rw [List.cons_append, splitOnChar, ih (fun hm => h (List.mem_cons_of_mem a hm))]
    simp [ha]

theorem splitOnChar_flatten_terminated (c : Char) (lines : List (List Char))
    (h : ∀ p ∈ lines, c ∉ p) :
    splitOnChar c ((lines.map (fun l => l ++ [c])).flatten) = lines ++ [[]] := by
  induction lines with
  | nil => rfl
  | cons p ps ih =>
    rw [List.map_cons, List.flatten_cons, List.append_assoc, List.singleton_append]
    rw [splitOnChar_append_sep c p _ (h p (List.mem_cons_self p ps))]
    rw [ih (fun q hq => h q (List.mem_cons_of_mem p hq))]
    rfl

theorem joinSep_splitOnChar (c : Char) (l : List Char) :
    joinSep c (splitOnChar c l) = l := by
  induction l with
  | nil => rfl
  | cons x xs ih =>
    rw [splitOnChar]
    rcases hr : splitOnChar c xs with _ | ⟨r, rs⟩
    · exact absurd hr (splitOnChar_ne_nil c xs)
    · rw [hr] at ih
      dsimp only
      by_cases hx : x = c
      · rw [if_pos hx, joinSep, List.nil_append, ih, hx]
      · rw [if_neg hx]
        cases rs with
        | nil =>
          rw [joinSep] at ih ⊢
          rw [ih]
        | cons r2 rs2 =>
          rw [joinSep] at ih ⊢
          rw [List.cons_append, ih]

theorem keys_mkRecord (hs : List Cell) (vs : List Cell) :
    (mkRecord hs vs).map Prod.fst = hs := by
  induction hs generalizing vs with
  | nil => rfl
  | cons h hs ih =>
    cases vs with
    | nil => simp [mkRecord, ih]
    | cons v vs => simp [mkRecord, ih]

theorem cells_mkRecord (hs : List Cell) (vs : List Cell) (hnd : hs.Nodup)
    (hlen : vs.length = hs.length) :
    hs.map (cellOf (mkRecord hs vs)) = vs := by
  induction hs generalizing vs with
  | nil =>
    cases vs with
    | nil => rfl
    | cons v vs => simp at hlen
  | cons h hs ih =>
    cases vs with
    | nil => simp at hlen
    | cons v vs =>
      rw [List.map_cons]
      have hhd : cellOf (mkRecord (h :: hs) (v :: vs)) h = v := by
        simp [mkRecord, cellOf, recGet]
      have htl : hs.map (cellOf (mkRecord (h :: hs) (v :: vs)))
          = hs.map (cellOf (mkRecord hs vs)) := by
        refine List.map_congr_left ?_
        intro a ha
        have hne : ¬a = h := fun e => (List.nodup_cons.mp hnd).1 (e ▸ ha)
        simp [mkRecord, cellOf, recGet, hne]
      rw [hhd, htl, ih vs (List.nodup_cons.mp hnd).2 (by simpa using hlen)]

theorem foldl_addCell_of_mem (ks : List Cell) (acc : List Cell)
    (h : ∀ k ∈ ks, k ∈ acc) :
    ks.foldl (fun a k => if k ∈ a then a else a ++ [k]) acc = acc := by
  induction ks generalizing acc with
  | nil => rfl
  | cons k ks ih =>
    rw [List.foldl_cons, if_pos (h k (List.mem_cons_self k ks))]
    exact ih acc (fun k2 hk2 => h k2 (List.mem_cons_of_mem k hk2))

theorem foldl_addCell_disjoint (ks : List Cell) (acc : List Cell)
    (hnd : ks.Nodup) (hdis : ∀ k ∈ ks, k ∉ acc) :
    ks.foldl (fun a k => if k ∈ a then a else a ++ [k]) acc = acc ++ ks := by
  induction ks generalizing acc with
  | nil => simp
  | cons k ks ih =>
    rw [List.foldl_cons, if_neg (hdis k (List.mem_cons_self k ks))]
    have hdis2 : ∀ k2 ∈ ks, k2 ∉ acc ++ [k] := by
      intro k2 hk2 hm
      rcases List.mem_append.mp hm with h1 | h1
      · exact hdis k2 (List.mem_cons_of_mem k hk2) h1
      · exact (List.nodup_cons.mp hnd).1 ((List.mem_singleton.mp h1) ▸ hk2)
    rw [ih (acc ++ [k]) (List.nodup_cons.mp hnd).2 hdis2, List.append_assoc,
      List.singleton_append]

theorem foldl_pairs_eq_keys (t : TicketRec) (acc : List Cell) :
    t.foldl (fun a kv => if kv.1 ∈ a then a else a ++ [kv.1]) acc
      = (t.map Prod.fst).foldl (fun a k => if k ∈ a then a else a ++ [k]) acc := by
  induction t generalizing acc with
  | nil => rfl
  | cons kv t ih => rw [List.foldl_cons, List.map_cons, List.foldl_cons, ih]

theorem collectFields_keep (hdr : List Cell) (ts : List TicketRec)
    (hts : ∀ t ∈ ts, t.map Prod.fst = hdr) :
    ts.foldl (fun acc t =>
      t.foldl (fun a kv => if kv.1 ∈ a then a else a ++ [kv.1]) acc) hdr = hdr := by
  induction ts with
  | nil => rfl
  | cons t ts ih =>
    rw [List.foldl_cons, foldl_pairs_eq_keys, hts t (List.mem_cons_self t ts),
      foldl_addCell_of_mem hdr hdr (fun k hk => hk)]
    exact ih (fun t2 ht2 => hts t2 (List.mem_cons_of_mem t ht2))

theorem collectFields_uniform (hdr : List Cell) (hnd : hdr.Nodup)
    (ts : List TicketRec) (hts : ∀ t ∈ ts, t.map Prod.fst = hdr) (hne : ts ≠ []) :
    collectFields ts = hdr := by
  cases ts with
  | nil => exact absurd rfl hne
  | cons t ts2 =>
    rw [collectFields, List.foldl_cons, foldl_pairs_eq_keys,
      hts t (List.mem_cons_self t ts2),
      foldl_addCell_disjoint hdr [] hnd (fun k _ hk => by cases hk),
      List.nil_append]
    exact collectFields_keep hdr ts2 (fun t2 ht2 => hts t2 (List.mem_cons_of_mem t ht2))

/-- C7: loading the persisted store when the store file does not exist
yields the empty record list; the `FileNotFoundError` branch of
`cargar_tickets` normalizes absence instead of propagating an error. -/
theorem c7_missing_store_loads_empty : cargar_tickets none = [] := rfl

/-- C8 is refuted as stated: in a store whose data row is shorter than the
header, the missing column loads as `None`, and the save-then-load round
trip turns that value into the empty string, so a field value of the
observable content changes. -/
theorem c8_counterexample :
    cargar_tickets (some ("a,b\nx\n".data))
      = [[("a".data, some ("x".data)), ("b".data, none)]] ∧
    cargar_tickets (guardar_tickets (cargar_tickets (some ("a,b\nx\n".data)))
        (some ("a,b\nx\n".data)))
      = [[("a".data, some ("x".data)), ("b".data, some [])]] ∧
    cargar_tickets (guardar_tickets (cargar_tickets (some ("a,b\nx\n".data)))
        (some ("a,b\nx\n".data)))
      ≠ cargar_tickets (some ("a,b\nx\n".data)) := by
  decide

/-- C8 (amended): for every persisted store whose header has distinct column
names and whose data rows all have exactly as many fields as the header,
executing the save of the loaded records leaves the loaded observable
content unchanged; rows shorter than the header additionally have their
missing values normalized from `None` to the empty string. -/
theorem c8_roundtrip (content headerLine : List Char)
    (rowLines : List (List Char))
    (hsplit : csvLines content = headerLine :: rowLines)
    (hnd : (splitOnChar ',' headerLine).Nodup)
    (hlen : ∀ r ∈ rowLines,
      (splitOnChar ',' r).length = (splitOnChar ',' headerLine).length) :
    cargar_tickets (guardar_tickets (cargar_tickets (some content)) (some content))
      = cargar_tickets (some content) := by
  cases rowLines with
  | nil =>
    have hload : cargar_tickets (some content) = [] := by
      show parseStore content = []
      rw [parseStore, hsplit]
      rfl
    rw [hload]
    show cargar_tickets (some content) = []
    exact hload
  | cons r0 rs =>
    have hload : cargar_tickets (some content)
        = (r0 :: rs).map
            (fun r => mkRecord (splitOnChar ',' headerLine) (splitOnChar ',' r)) := by
      show parseStore content = _
      rw [parseStore, hsplit]
    set hdr := splitOnChar ',' headerLine with hhdr
    set ts := (r0 :: rs).map (fun r => mkRecord hdr (splitOnChar ',' r)) with htsdef
    have hkeys : ∀ t ∈ ts, t.map Prod.fst = hdr := by
      intro t ht
      rcases List.mem_map.mp ht with ⟨r, hr, hre⟩
      rw [← hre]
      exact keys_mkRecord hdr _
    have htsne : ts ≠ [] := by simp [htsdef]
    have hcf : collectFields ts = hdr := collectFields_uniform hdr hnd ts hkeys htsne
    have hcells : ∀ r ∈ r0 :: rs,
        hdr.map (cellOf (mkRecord hdr (splitOnChar ',' r))) = splitOnChar ',' r :=
      fun r hr => cells_mkRecord hdr _ hnd (hlen r hr)
    have hlineseq : joinSep ',' hdr ::
          ts.map (fun t => joinSep ',' (hdr.map (cellOf t)))
        = headerLine :: r0 :: rs := by
      congr 1
      · exact joinSep_splitOnChar ',' headerLine
      · rw [htsdef, List.map_map]
        have hid : ∀ r ∈ r0 :: rs,
            ((fun t => joinSep ',' (hdr.map (cellOf t))) ∘
              (fun r => mkRecord hdr (splitOnChar ',' r))) r = id r := by
          intro r hr
          show joinSep ',' (hdr.map (cellOf (mkRecord hdr (splitOnChar ',' r)))) = r
          rw [hcells r hr]
          exact joinSep_splitOnChar ',' r
        rw [List.map_congr_left hid, List.map_id]
    have hrender : renderStore ts
        = ((headerLine :: r0 :: rs).map (fun l => l ++ ['\n'])).flatten := by
      rw [renderStore, hcf, hlineseq]
    have hmemlines : ∀ p ∈ headerLine :: r0 :: rs, ('\n' : Char) ∉ p ∧ p ≠ [] := by
      intro p hp
      have hp2 : p ∈ csvLines content := by rw [hsplit]; exact hp
      have hp3 := List.mem_filter.mp hp2
      refine ⟨not_mem_of_mem_splitOnChar '\n' content p hp3.1, ?_⟩
      intro he
      rw [he] at hp3
      simp [List.isEmpty] at hp3
    have hlines2 : csvLines (renderStore ts) = headerLine :: r0 :: rs := by
      rw [hrender, csvLines,
        splitOnChar_flatten_terminated '\n' _ (fun p hp => (hmemlines p hp).1),
        List.filter_append]
      have h1 : (headerLine :: r0 :: rs).filter (fun l => !l.isEmpty)
          = headerLine :: r0 :: rs := by
        refine List.filter_eq_self.mpr ?_
        intro a ha
        have := (hmemlines a ha).2
        simpa [List.isEmpty_iff]
      have h2 : ([([] : List Char)]).filter (fun l => !l.isEmpty) = [] := by rfl
      rw [h1, h2, List.append_nil]
    have hsave : guardar_tickets ts (some content) = some (renderStore ts) := by
      rw [guardar_tickets, if_neg]
      simp [htsdef]
    rw [hload, hsave]
    show parseStore (renderStore ts) = ts
    rw [parseStore, hlines2]

/-- Witness for the amended C8 at a concrete two-column store with one
full-length row. -/
theorem c8_roundtrip_witness :
    cargar_tickets (guardar_tickets (cargar_tickets (some ("a,b\nx,y\n".data)))
        (some ("a,b\nx,y\n".data)))
      = cargar_tickets (some ("a,b\nx,y\n".data)) :=
  c8_roundtrip ("a,b\nx,y\n".data) ("a,b".data) ["x,y".data]
    (by decide) (by decide) (by decide)

/-- C10: saving with an empty in-memory ticket list is a no-op on the store
file state, for an absent file and for any existing content alike; only a
nonempty list rewrites the file, with the content produced by the renderer,
whose header line is the first-seen union of the field names. -/
theorem c10_save_empty_is_noop :
    (∀ file, guardar_tickets [] file = file) ∧
    (∀ ts file, ts ≠ [] →
      guardar_tickets ts file = some (renderStore ts) ∧
      renderStore ts
        = ((joinSep ',' (collectFields ts) ::
            ts.map (fun t => joinSep ',' ((collectFields ts).map (cellOf t)))).map
              (fun l => l ++ ['\n'])).flatten) := by
  refine ⟨fun file => rfl, fun ts file hne => ⟨?_, rfl⟩⟩
  rw [guardar_tickets, if_neg]
  simpa using hne

/-- Witness for C10 at a concrete nonempty ticket list. -/
theorem c10_save_empty_is_noop_witness :
    guardar_tickets [[("a".data, some ("x".data))]] none
      = some (renderStore [[("a".data, some ("x".data))]]) ∧
    renderStore [[("a".data, some ("x".data))]]
      = ((joinSep ',' (collectFields [[("a".data, some ("x".data))]]) ::
          [[("a".data, some ("x".data))]].map
            (fun t => joinSep ','
              ((collectFields [[("a".data, some ("x".data))]]).map (cellOf t)))).map
            (fun l => l ++ ['\n'])).flatten :=
  c10_save_empty_is_noop.2 [[("a".data, some ("x".data))]] none (by decide)
